import Mathlib

/-!
Shallow embedding of the imap-filter-rs matching and state-transition engine:
`src/address_filter.rs`, `src/message.rs`, `src/message_filter.rs`,
`src/state.rs`, `src/utils.rs` and `src/imap_filter.rs`.

Machine integers are modelled as `Nat`/`Int`; fallible Rust code returning
`Result` is modelled with `Except String`; a Rust panic (`expect`) is
modelled with `Option` (`none` = panic).  Network effects are modelled as
explicit event traces, with server responses supplied by an oracle.
-/

/-! ## Glob patterns

The source delegates wildcard matching to the external `globset` crate
(`Glob::new(pattern)` which can fail on malformed syntax, then
`compile_matcher().is_match(text)`).  The crate is an external collaborator,
so its core semantics is modelled here: literal characters, `\`-escapes,
`*` (any run of characters — with globset's default settings `*` is not
separator-aware), `?` (any single character) and `[...]` character classes
with optional `!` negation and `a-b` ranges; an unclosed class (as in the
pattern `invalid[glob` of the source's own tests) is a parse failure.
Recursions are written with an explicit fuel argument, always called with
enough fuel (one unit per consumed character), so that the definitions
reduce on concrete inputs. -/

inductive GTok where
  | lit (c : Char)
  | star
  | qmark
  | cls (neg : Bool) (singles : List Char) (ranges : List (Char × Char))
  deriving Repr, DecidableEq

/-- Parse the interior of a `[...]` character class, after the optional
negation marker.  Returns the singles, the ranges and the rest of the
pattern after the closing `]`; `none` when the class is never closed. -/
def parseClassItems : List Char → Option (List Char × List (Char × Char) × List Char)
  | [] => none
  | ']' :: rest => some ([], [], rest)
  | a :: '-' :: b :: rest =>
      if b = ']' then
        -- a trailing dash before the closing bracket counts as two singles
        some ([a, '-'], [], rest)
      else
        (parseClassItems rest).map (fun x => (x.1, (a, b) :: x.2.1, x.2.2))
  | c :: rest =>
      (parseClassItems rest).map (fun x => (c :: x.1, x.2.1, x.2.2))

/-- Glob pattern parser (fuel-indexed; one unit of fuel per consumed
character suffices, see `globParse`). -/
def globParseFuel : Nat → List Char → Option (List GTok)
  | 0, _ => none
  | _ + 1, [] => some []
  | n + 1, c :: rest =>
      if c = '*' then (globParseFuel n rest).map (GTok.star :: ·)
      else if c = '?' then (globParseFuel n rest).map (GTok.qmark :: ·)
      else if c = '\\' then
        match rest with
        | [] => none
        | d :: rest2 => (globParseFuel n rest2).map (GTok.lit d :: ·)
      else if c = '[' then
        match rest with
        | '!' :: rest2 =>
            match parseClassItems rest2 with
            | none => none
            | some (ss, rs, tl) => (globParseFuel n tl).map (GTok.cls true ss rs :: ·)
        | _ =>
            match parseClassItems rest with
            | none => none
            | some (ss, rs, tl) => (globParseFuel n tl).map (GTok.cls false ss rs :: ·)
      else (globParseFuel n rest).map (GTok.lit c :: ·)

/-- `Glob::new(pattern)` of the globset crate: `none` models a parse error. -/
def globParse (pattern : String) : Option (List GTok) :=
  globParseFuel (pattern.toList.length + 1) pattern.toList

/-- Does one parsed glob token match one character? -/
def tokMatchesChar : GTok → Char → Bool
  | GTok.lit a, c => a = c
  | GTok.qmark, _ => true
  | GTok.star, _ => true
  | GTok.cls neg ss rs, c =>
      let inside := ss.contains c || rs.any (fun r => r.1 ≤ c && c ≤ r.2)
      if neg then !inside else inside

/-- Glob matcher (fuel-indexed; `ps.length + s.length + 1` fuel suffices
since every recursive call shrinks `ps.length + s.length`). -/
def globMatchFuel : Nat → List GTok → List Char → Bool
  | 0, _, _ => false
  | _ + 1, [], [] => true
  | _ + 1, [], _ :: _ => false
  | n + 1, GTok.star :: ps, s =>
      globMatchFuel n ps s ||
        (match s with
         | [] => false
         | _ :: cs => globMatchFuel n (GTok.star :: ps) cs)
  | _ + 1, _ :: _, [] => false
  | n + 1, p :: ps, c :: cs =>
      tokMatchesChar p c && globMatchFuel n ps cs

/-- `compile_matcher().is_match(text)` on a parsed glob. -/
def globMatchToks (ps : List GTok) (s : List Char) : Bool :=
  globMatchFuel (ps.length + s.length + 1) ps s

/-- Pure glob match of a pattern against a text, defined only up to parse
success (a non-parsing pattern yields `false`; the embedding of the source
only ever uses this under a parse-success hypothesis). -/
def globMatchStr (pattern text : String) : Bool :=
  match globParse pattern with
  | none => false
  | some ps => globMatchToks ps text.toList

/-! ## AddressFilter (`src/address_filter.rs`)

`AddressFilter::matches` iterates over the patterns with a short-circuiting
`any`; each reached pattern is compiled with
`Glob::new(pattern).expect("Invalid glob pattern")`, which panics on a
malformed pattern.  The panic is modelled with `Option`: `none` means the
call panicked. -/

structure AddressFilter where
  patterns : List String
  deriving Repr, DecidableEq

/-- Short-circuiting `any` over the patterns, compiling each reached
pattern; `none` models the `expect` panic on a malformed pattern. -/
def AddressFilter.matchesAux : List String → List String → Option Bool
  | [], _ => some false
  | p :: ps, emails =>
      match globParse p with
      | none => none
      | some g =>
          if emails.any (fun e => globMatchToks g e.toList) then some true
          else AddressFilter.matchesAux ps emails

/-- `AddressFilter::matches(&self, emails)`. -/
def AddressFilter.matches (f : AddressFilter) (emails : List String) : Option Bool :=
  AddressFilter.matchesAux f.patterns emails

/-- Pure (panic-free) version of `matches`, used to state properties; it
agrees with `AddressFilter.matches` whenever every pattern parses
(`AddressFilter.matches_eq_pure`). -/
def AddressFilter.matchesPure (f : AddressFilter) (emails : List String) : Bool :=
  f.patterns.any (fun p => emails.any (fun e => globMatchStr p e))

/-! ## Message and MessageFilter (`src/message.rs`, `src/message_filter.rs`) -/

inductive FilterAction where
  | star
  | flag
  | move (label : String)
  deriving Repr, DecidableEq

structure Message where
  uid : Nat
  «to» : List (String × String)
  cc : List (String × String)
  «from» : List (String × String)
  subject : String
  deriving Repr, DecidableEq

structure MessageFilter where
  name : String
  «to» : Option AddressFilter
  cc : Option AddressFilter
  «from» : Option AddressFilter
  subject : List String
  actions : List FilterAction
  deriving Repr, DecidableEq

/-- `Message::matches_field` — the tri-state per-field semantics:
an absent field is a wildcard, a present-but-empty pattern set requires the
message's own list to be empty, otherwise delegate to
`AddressFilter::matches` over the address components. -/
def Message.matches_field (field : Option AddressFilter) (msg : Message)
    (extractor : Message → List (String × String)) : Option Bool :=
  match field with
  | some f =>
      if f.patterns.isEmpty then some (extractor msg).isEmpty
      else f.matches ((extractor msg).map (fun x => x.2))
  | none => some true

/-- Subject clause of `Message::compare`: any-pattern glob match, each
reached pattern compiled with a panicking `expect`. -/
def Message.subjectAux : List String → String → Option Bool
  | [], _ => some false
  | p :: ps, subject =>
      match globParse p with
      | none => none
      | some g =>
          if globMatchToks g subject.toList then some true
          else Message.subjectAux ps subject

/-- `Message::compare(&self, filter) -> (bool, bool, bool, bool)`:
from, to and cc field matches, then the subject match; the fields are
evaluated in that order, so the first panicking glob aborts the whole
call (`none`). -/
def Message.compare (msg : Message) (filter : MessageFilter) :
    Option (Bool × Bool × Bool × Bool) := do
  let fromMatch ← Message.matches_field filter.«from» msg (fun m => m.«from»)
  let toMatch ← Message.matches_field filter.«to» msg (fun m => m.«to»)
  let ccMatch ← Message.matches_field filter.cc msg (fun m => m.cc)
  let subjectMatch ←
    if filter.subject.isEmpty then some true
    else Message.subjectAux filter.subject msg.subject
  some (fromMatch, toMatch, ccMatch, subjectMatch)

/-- `filter.actions.first()` dispatch of `apply_filters`: the source only
honours the first action ("We only honor the *first* action in the Vec"). -/
def overallMatch (msg : Message) (filter : MessageFilter) : Option Bool :=
  (Message.compare msg filter).map (fun t => t.1 && t.2.1 && t.2.2.1 && t.2.2.2)

/-- Do all patterns of a list parse as globs? -/
def patternsParse (ps : List String) : Bool :=
  ps.all (fun p => (globParse p).isSome)

/-- Do all patterns of an optional address filter parse? -/
def addressFilterParses : Option AddressFilter → Bool
  | none => true
  | some af => patternsParse af.patterns

/-- Do all glob patterns mentioned by a message filter parse? -/
def filterParses (f : MessageFilter) : Bool :=
  addressFilterParses f.«from» && addressFilterParses f.«to» &&
    addressFilterParses f.cc && patternsParse f.subject

/-- Spec-side field contribution (written from the spec's words, §4.2):
absent = wildcard, present-empty = message list must be empty,
present-nonempty = any-of over the address components. -/
def fieldPure (field : Option AddressFilter) (addrs : List (String × String)) : Bool :=
  match field with
  | none => true
  | some af =>
      if af.patterns.isEmpty then addrs.isEmpty
      else af.matchesPure (addrs.map (fun x => x.2))

/-- Spec-side subject contribution: empty pattern list matches everything,
otherwise some pattern must glob-match the subject. -/
def subjectPure (pats : List String) (subject : String) : Bool :=
  if pats.isEmpty then true else pats.any (fun p => globMatchStr p subject)

/-- Spec-side overall match: the AND of the four field contributions. -/
def overallPure (filter : MessageFilter) (msg : Message) : Bool :=
  fieldPure filter.«from» msg.«from» && fieldPure filter.«to» msg.«to» &&
    fieldPure filter.cc msg.cc && subjectPure filter.subject msg.subject

/-! ## The filter engine (`IMAPFilter::apply_filters`, `src/imap_filter.rs`)

The engine walks the configured filters in order; for each filter it
partitions the currently remaining messages with `Message::compare`
(AND of the four fields), issues the server mutation for each matched
message, and carries only the unmatched messages to the next filter.
Despite the ordered `actions` vector, the source dispatches only
`filter.actions.first()` ("We only honor the *first* action in the Vec").
Server mutations are recorded as events; a failed mutation is only logged
by the source, so an event records the issued attempt. -/

inductive FilterEvent where
  | uidStore (uid : Nat) (cmd : String)
  | uidMv (uid : Nat) (label : String)
  deriving Repr, DecidableEq

def eventUid : FilterEvent → Nat
  | FilterEvent.uidStore u _ => u
  | FilterEvent.uidMv u _ => u

/-- The server call issued for one action on one message, as in the three
`match action` arms of `apply_filters`. -/
def actionEvent (uid : Nat) : FilterAction → FilterEvent
  | FilterAction.star => FilterEvent.uidStore uid "+X-GM-LABELS (\\Starred)"
  | FilterAction.flag => FilterEvent.uidStore uid "+X-GM-LABELS (\\Important)"
  | FilterAction.move label => FilterEvent.uidMv uid label

/-- Events issued for one matched message: only the first action of the
filter is honoured (`if let Some(action) = filter.actions.first()`). -/
def messageEvents (filter : MessageFilter) (msg : Message) : List FilterEvent :=
  match filter.actions.head? with
  | none => []
  | some a => [actionEvent msg.uid a]

/-- `messages.into_iter().partition(...)` over `Message::compare`; order
preserved, `none` models a panic inside `compare`. -/
def partitionM (filter : MessageFilter) : List Message → Option (List Message × List Message)
  | [] => some ([], [])
  | m :: ms => do
      let b ← overallMatch m filter
      let p ← partitionM filter ms
      if b then some (m :: p.1, p.2) else some (p.1, m :: p.2)

/-- `IMAPFilter::apply_filters`: returns the trace of issued server calls
and the final remaining (untouched) message list. -/
def apply_filters : List MessageFilter → List Message → Option (List FilterEvent × List Message)
  | [], msgs => some ([], msgs)
  | f :: fs, msgs => do
      let p ← partitionM f msgs
      let rest ← apply_filters fs p.2
      some (p.1.flatMap (messageEvents f) ++ rest.1, rest.2)

/-- Pure (panic-free) filter pass, agreeing with `apply_filters` whenever
every configured glob parses (`apply_filters_eq_pure`). -/
def applyFiltersPure : List MessageFilter → List Message → List FilterEvent × List Message
  | [], msgs => ([], msgs)
  | f :: fs, msgs =>
      let mt := msgs.filter (fun m => overallPure f m)
      let rm := msgs.filter (fun m => !overallPure f m)
      let rest := applyFiltersPure fs rm
      (mt.flatMap (messageEvents f) ++ rest.1, rest.2)

/-- Do all glob patterns of all filters parse? -/
def filtersParse (fs : List MessageFilter) : Bool :=
  fs.all filterParses

/-- The first filter of the list (in configured order) matched by the
message, if any. -/
def firstMatch : List MessageFilter → Message → Option MessageFilter
  | [], _ => none
  | f :: fs, m => if overallPure f m then some f else firstMatch fs m

/-- Events the engine issues for one given message: those of the first
matching filter, none when no filter matches. -/
def firstMatchEvents (fs : List MessageFilter) (m : Message) : List FilterEvent :=
  match firstMatch fs m with
  | none => []
  | some f => messageEvents f m

/-! ## Retention states (`src/state.rs`) and TTL parsing (`src/utils.rs`) -/

inductive TTL where
  | keep
  | simple (days : String)
  | detailed (readTtl unreadTtl : String)
  deriving Repr, DecidableEq

inductive StateAction where
  | move (label : String)
  | delete
  deriving Repr, DecidableEq

structure State where
  name : String
  query : String
  ttl : TTL
  action : StateAction
  nerf : Bool
  deriving Repr, DecidableEq

/-- Rust's `str::trim` (strip whitespace from both ends), over chars. -/
def rustTrim (s : String) : String :=
  String.mk (((s.toList.dropWhile Char.isWhitespace).reverse.dropWhile
    Char.isWhitespace).reverse)

/-- Digit-string accumulator for `i64::from_str`. -/
def parseDigitsAux : List Char → Nat → Option Nat
  | [], acc => some acc
  | c :: cs, acc =>
      if c.isDigit then parseDigitsAux cs (acc * 10 + (c.toNat - 48)) else none

/-- `str::parse::<i64>()`: optional sign then a non-empty digit run
(overflow is not modelled; the embedding uses unbounded `Int`). -/
def parseI64 : List Char → Option Int
  | [] => none
  | '+' :: rest =>
      if rest.isEmpty then none else (parseDigitsAux rest 0).map Int.ofNat
  | '-' :: rest =>
      if rest.isEmpty then none else (parseDigitsAux rest 0).map (fun n => -(n : Int))
  | l => (parseDigitsAux l 0).map Int.ofNat

/-- `str::strip_suffix('d')`. -/
def stripSuffixD (s : List Char) : Option (List Char) :=
  match s.reverse with
  | 'd' :: rest => some rest.reverse
  | _ => none

/-- `utils::parse_days`: `"<n>d"` → `chrono::Duration::days(n)`.
Durations and timestamps are modelled in seconds (`days * 86400`), which
preserves all comparisons of the source. -/
def parse_days (s : String) : Except String Int :=
  let t := rustTrim s
  match stripSuffixD t.toList with
  | some numChars =>
      match parseI64 numChars with
      | some days => Except.ok (days * 86400)
      | none => Except.error ("Invalid TTL duration " ++ t)
  | none => Except.error ("Unsupported TTL format " ++ t)

instance {ε α : Type} [DecidableEq ε] [DecidableEq α] : DecidableEq (Except ε α) :=
  fun x y =>
    match x, y with
    | Except.ok a, Except.ok b =>
        if h : a = b then Decidable.isTrue (by rw [h])
        else Decidable.isFalse (by intro hc; injection hc; exact h ‹a = b›)
    | Except.error a, Except.error b =>
        if h : a = b then Decidable.isTrue (by rw [h])
        else Decidable.isFalse (by intro hc; injection hc; exact h ‹a = b›)
    | Except.ok _, Except.error _ => Decidable.isFalse (fun hc => Except.noConfusion hc)
    | Except.error _, Except.ok _ => Decidable.isFalse (fun hc => Except.noConfusion hc)

/-! ## The retention engine (`IMAPFilter::evaluate_states`)

Per-message decision and network-event trace.  The server (search results,
per-UID labels, INTERNALDATE, Seen flag) is an oracle; mutations are
recorded as events.  The source issues `uid_search` directly with the
state's query — `utils::validate_imap_query` is never called. -/

inductive StateDecision where
  | protectedSkip
  | keepSkip
  | notExpiredSkip
  | nerfLog (a : StateAction)
  | applied (a : StateAction)
  deriving Repr, DecidableEq

/-- Outcome once the TTL has expired: NERF (dry-run) states only log. -/
def expireOutcome (st : State) : StateDecision :=
  if st.nerf then StateDecision.nerfLog st.action else StateDecision.applied st.action

/-- The per-UID decision logic of `evaluate_states`, steps (c)–(f):
Starred/Important get a free pass, `Keep` always skips, otherwise the
TTL is resolved (read/unread conditioned on the Seen flag) and the
message expires iff `¬(age < ttl)`. -/
def evaluateMessage (now : Int) (st : State) (labels : List String)
    (internalDate : Int) (seen : Bool) : Except String StateDecision :=
  if labels.contains "Starred" || labels.contains "Important" then
    Except.ok StateDecision.protectedSkip
  else
    match st.ttl with
    | TTL.keep => Except.ok StateDecision.keepSkip
    | TTL.simple days => do
        let dur ← parse_days days
        if now - internalDate < dur then Except.ok StateDecision.notExpiredSkip
        else Except.ok (expireOutcome st)
    | TTL.detailed readTtl unreadTtl => do
        let dur ← parse_days (if seen then readTtl else unreadTtl)
        if now - internalDate < dur then Except.ok StateDecision.notExpiredSkip
        else Except.ok (expireOutcome st)

inductive NetEvent where
  | selectInbox
  | uidSearch (q : String)
  | fetchLabels (uid : Nat)
  | fetchMeta (uid : Nat)
  | storeDeleted (uid : Nat)
  | uidMv (uid : Nat) (label : String)
  deriving Repr, DecidableEq

def isMutating : NetEvent → Bool
  | NetEvent.storeDeleted _ => true
  | NetEvent.uidMv _ _ => true
  | _ => false

/-- `IMAPFilter::apply_transitions`: Delete marks `\Deleted`, Move issues
a UID MOVE. -/
def apply_transitions (uid : Nat) : StateAction → List NetEvent
  | StateAction.delete => [NetEvent.storeDeleted uid]
  | StateAction.move label => [NetEvent.uidMv uid label]

/-- Mutating server calls issued for a per-message decision; only an
`applied` decision mutates (NERF only logs). -/
def decisionEvents (uid : Nat) : StateDecision → List NetEvent
  | StateDecision.applied a => apply_transitions uid a
  | _ => []

structure MailOracle where
  searchResult : String → List Nat
  labelsOf : Nat → List String
  internalDate : Nat → Int
  seenFlag : Nat → Bool

/-- One UID of the `evaluate_states` inner loop: fetch labels, skip if
protected, otherwise fetch INTERNALDATE/FLAGS and act on the decision. -/
def evalUid (o : MailOracle) (now : Int) (st : State) (uid : Nat) :
    Except String (List NetEvent) := do
  let labels := o.labelsOf uid
  let d ← evaluateMessage now st labels (o.internalDate uid) (o.seenFlag uid)
  match d with
  | StateDecision.protectedSkip => Except.ok [NetEvent.fetchLabels uid]
  | _ => Except.ok (NetEvent.fetchLabels uid :: NetEvent.fetchMeta uid ::
      decisionEvents uid d)

def evalUids (o : MailOracle) (now : Int) (st : State) :
    List Nat → Except String (List NetEvent)
  | [] => Except.ok []
  | uid :: rest => do
      let evs ← evalUid o now st uid
      let more ← evalUids o now st rest
      Except.ok (evs ++ more)

def statesLoop (o : MailOracle) (now : Int) : List State → Except String (List NetEvent)
  | [] => Except.ok []
  | st :: rest => do
      let evs ← evalUids o now st (o.searchResult st.query)
      let more ← statesLoop o now rest
      Except.ok (NetEvent.uidSearch st.query :: (evs ++ more))

/-- `IMAPFilter::evaluate_states`: select INBOX once, then for each state
issue `uid_search(&state.query)` — with no validation of the query — and
process each returned UID in order. -/
def evaluate_states (o : MailOracle) (now : Int) (states : List State) :
    Except String (List NetEvent) := do
  let evs ← statesLoop o now states
  Except.ok (NetEvent.selectInbox :: evs)

/-! ## Query validation (`utils::validate_imap_query`)

Faithful model of the validator.  Note that nothing in `imap_filter.rs`
(or anywhere else in the crate) ever calls it. -/

def validTokens : List String :=
  ["ALL", "ANSWERED", "DELETED", "DRAFT", "FLAGGED", "NEW", "OLD",
   "RECENT", "SEEN", "UNANSWERED", "UNDELETED", "UNDRAFT", "UNFLAGGED", "UNSEEN",
   "X-GM-LABELS", "X-GM-RAW", "X-GM-THRID", "X-GM-MSGID",
   "INBOX", "NOT", "OR", "AND"]

def toAsciiLower (c : Char) : Char :=
  if 'A' ≤ c && c ≤ 'Z' then Char.ofNat (c.toNat + 32) else c

/-- `str::eq_ignore_ascii_case`. -/
def eqIgnoreAsciiCase (a b : String) : Bool :=
  a.toList.map toAsciiLower == b.toList.map toAsciiLower

/-- `str::split_whitespace` (splits on whitespace, drops empty chunks). -/
def splitWhitespaceAux : List Char → List Char → List String
  | [], acc => if acc.isEmpty then [] else [String.mk acc.reverse]
  | c :: cs, acc =>
      if c.isWhitespace then
        if acc.isEmpty then splitWhitespaceAux cs []
        else String.mk acc.reverse :: splitWhitespaceAux cs []
      else splitWhitespaceAux cs (c :: acc)

def splitWhitespace (s : String) : List String :=
  splitWhitespaceAux s.toList []

/-- `token.trim_matches(|c| c == '(' || c == ')' || c == '"')`. -/
def trimParenQuote (s : String) : String :=
  let p := fun c : Char => c = '(' || c = ')' || c = '"'
  String.mk (((s.toList.dropWhile p).reverse.dropWhile p).reverse)

/-- Is `needle` a contiguous sub-list of the second argument? -/
def subListSearch (needle : List Char) : List Char → Bool
  | [] => needle.isEmpty
  | c :: rest => needle.isPrefixOf (c :: rest) || subListSearch needle rest

/-- `str::contains(&str)`: substring containment. -/
def containsSub (hay needle : String) : Bool :=
  subListSearch needle.toList hay.toList

/-- `str::starts_with(&str)`. -/
def strStartsWith (s pre : String) : Bool :=
  pre.toList.isPrefixOf s.toList

/-- The per-token scan loop of `validate_imap_query`. -/
def validateTokensLoop : List String → Except String Unit
  | [] => Except.ok ()
  | token :: rest =>
      let t := trimParenQuote token
      if strStartsWith t "X-GM-LABELS" ||
          validTokens.any (fun v => eqIgnoreAsciiCase v t) then
        validateTokensLoop rest
      else if strStartsWith t "\\" then validateTokensLoop rest
      else if t.toList.all Char.isAlphanum then validateTokensLoop rest
      else Except.error ("Unsupported or malformed token in IMAP query: " ++ token)

/-- `utils::validate_imap_query`: reject empty queries; with a backslash
present, require one of the five known escaped flags as a substring; then
scan every whitespace token. -/
def validate_imap_query (query : String) : Except String Unit :=
  if (rustTrim query).toList.isEmpty then
    Except.error "IMAP query must not be empty"
  else if query.toList.contains '\\' &&
      !(containsSub query "\\Seen" || containsSub query "\\Deleted" ||
        containsSub query "\\Flagged" || containsSub query "\\Draft" ||
        containsSub query "\\Answered") then
    Except.error ("Unknown or improperly escaped IMAP flag in query: " ++ query)
  else validateTokensLoop (splitWhitespace query)

/-! ## Label mutation primitives (`src/utils.rs`)

`set_label` / `del_label` / `ensure_label_exists` / `get_labels`, modelled
over an explicit server state (per-UID label sets plus the mailbox list)
and an explicit request trace.  The server's application of an accepted
store (add/remove the label) and its toleration of removing an absent
label follow the protocol description of the spec (§6, §4.5); transport
failures are out of scope, so every call returns successfully. -/

structure GmailState where
  msgLabels : List (Nat × List String)
  mailboxes : List String
  deriving Repr, DecidableEq

def labelsOfState (s : GmailState) (uid : Nat) : List String :=
  (s.msgLabels.lookup uid).getD []

inductive LabelReq where
  | fetchLabels (uid : Nat)
  | listBoxes
  | createBox (name : String)
  | storeAdd (uid : Nat) (label : String)
  | storeDel (uid : Nat) (label : String)
  deriving Repr, DecidableEq

def setAssoc : List (Nat × List String) → Nat → List String → List (Nat × List String)
  | [], uid, ls => [(uid, ls)]
  | (k, v) :: rest, uid, ls =>
      if k = uid then (uid, ls) :: rest else (k, v) :: setAssoc rest uid ls

/-- `utils::get_labels`: a fresh read of the message's label set
(one FETCH request, no mutation). -/
def get_labels (s : GmailState) (uid : Nat) : List String × List LabelReq :=
  (labelsOfState s uid, [LabelReq.fetchLabels uid])

/-- `utils::ensure_label_exists`: LIST, then CREATE only when absent. -/
def ensure_label_exists (s : GmailState) (label : String) :
    GmailState × List LabelReq :=
  if s.mailboxes.contains label then (s, [LabelReq.listBoxes])
  else ({ s with mailboxes := s.mailboxes ++ [label] },
    [LabelReq.listBoxes, LabelReq.createBox label])

/-- `utils::set_label`: read-check-then-write — fetch the current labels,
return at once when the label is already present, otherwise ensure the
label exists and issue one additive store. -/
def set_label (s : GmailState) (uid : Nat) (label : String) :
    GmailState × List LabelReq :=
  let cur := labelsOfState s uid
  if cur.contains label then (s, [LabelReq.fetchLabels uid])
  else
    let e := ensure_label_exists s label
    ({ e.1 with msgLabels := setAssoc e.1.msgLabels uid (labelsOfState e.1 uid ++ [label]) },
     LabelReq.fetchLabels uid :: e.2 ++ [LabelReq.storeAdd uid label])

/-- `utils::del_label`: one unconditional subtractive store; the server
treats removing an absent label as a no-op, so the call always succeeds. -/
def del_label (s : GmailState) (uid : Nat) (label : String) :
    GmailState × List LabelReq :=
  ({ s with msgLabels :=
      setAssoc s.msgLabels uid ((labelsOfState s uid).filter (fun l => !(l == label))) },
   [LabelReq.storeDel uid label])

/-- Number of additive-store requests in a request trace. -/
def countStoreAdds (reqs : List LabelReq) : Nat :=
  (reqs.filter (fun r => match r with
    | LabelReq.storeAdd _ _ => true
    | _ => false)).length

/-! ## Concrete fixtures used by counterexamples and witnesses -/

/-- The "only-me-star" filter of the source's own tests (`message.rs`). -/
def onlyMeStarFilter : MessageFilter :=
  { name := "only-me-star",
    «to» := some { patterns := ["scott.idler@tatari.tv"] },
    cc := some { patterns := [] },
    «from» := some { patterns := ["*@tatari.tv"] },
    subject := ["only to me"],
    actions := [FilterAction.star, FilterAction.flag] }

def matchingEmail : Message :=
  { uid := 1,
    «to» := [("Scott Idler", "scott.idler@tatari.tv")],
    cc := [],
    «from» := [("Scott Idler", "scott.idler@tatari.tv")],
    subject := "only to me" }

/-- Same addresses and subject as `matchingEmail`, different display names. -/
def matchingEmailRenamed : Message :=
  { uid := 1,
    «to» := [("S. I.", "scott.idler@tatari.tv")],
    cc := [],
    «from» := [("", "scott.idler@tatari.tv")],
    subject := "only to me" }

/-- A filter with three configured actions and no constraints. -/
def threeActionFilter : MessageFilter :=
  { name := "three-actions",
    «to» := none, cc := none, «from» := none, subject := [],
    actions := [FilterAction.star, FilterAction.flag, FilterAction.move "Archive"] }

def plainMessage : Message :=
  { uid := 5, «to» := [], cc := [], «from» := [], subject := "hello" }

/-- Written from the spec's words (§4.3): a matched message receives every
action of `filter.actions`, in order.  The refinement target `apply_filters`
is compared against. -/
def specAllActionEvents (f : MessageFilter) (uid : Nat) : List FilterEvent :=
  f.actions.map (actionEvent uid)

/-- A retention state with a fixed 7-day TTL and the Delete action. -/
def junkState : State :=
  { name := "Junk", query := "DELETED", ttl := TTL.simple "7d",
    action := StateAction.delete, nerf := false }

/-- A NERF (dry-run) retention state. -/
def nerfState : State :=
  { name := "NerfedState", query := "ALL", ttl := TTL.simple "3d",
    action := StateAction.delete, nerf := true }

/-- A state whose selection query is empty — `validate_imap_query` rejects
it, but `evaluate_states` never asks. -/
def emptyQueryState : State :=
  { name := "BadQuery", query := "", ttl := TTL.keep,
    action := StateAction.delete, nerf := false }

/-- An oracle whose searches return nothing. -/
def emptyOracle : MailOracle :=
  { searchResult := fun _ => [], labelsOf := fun _ => [],
    internalDate := fun _ => 0, seenFlag := fun _ => false }

def sampleGmailState : GmailState :=
  { msgLabels := [(7, ["INBOX"])], mailboxes := ["INBOX"] }

/-- `message_filter::deserialize_address_filter` (list form): the patterns
are collected as raw strings — no glob validation happens at load time. -/
def deserialize_address_filter (patterns : List String) :
    Except String (Option AddressFilter) :=
  Except.ok (some { patterns := patterns })

/-- TTL resolution as a plain duration (seconds): `none` for `Keep`
(which never expires) or an unparsable duration string. -/
def resolvedDuration (st : State) (seen : Bool) : Option Int :=
  match st.ttl with
  | TTL.keep => none
  | TTL.simple d => (parse_days d).toOption
  | TTL.detailed readTtl unreadTtl =>
      (parse_days (if seen then readTtl else unreadTtl)).toOption

/-! ## Claim theorems -/

/-! ## Sanity checks and theorems -/

example : globMatchStr "*@tatari.tv" "scott.idler@tatari.tv" = true := by decide

example : globMatchStr "*@tatari.tv" "someone@gmail.com" = false := by decide

example : globMatchStr "scott.*@tatari.tv" "scott.idler@tatari.tv" = true := by decide

example : globMatchStr "test" "test" = true := by decide

example : globParse "invalid[glob" = none := by decide

theorem AddressFilter.matchesAux_eq_pure (ps emails : List String)
    (h : patternsParse ps = true) :
    AddressFilter.matchesAux ps emails =
      some (ps.any (fun p => emails.any (fun e => globMatchStr p e))) := by
  induction ps with
  | nil => simp [AddressFilter.matchesAux]
  | cons p ps ih =>
      simp only [patternsParse, List.all_cons, Bool.and_eq_true] at h
      obtain ⟨hp, hps⟩ := h
      obtain ⟨g, hg⟩ := Option.isSome_iff_exists.mp hp
      have hstr : (fun e : String => globMatchStr p e) =
          (fun e : String => globMatchToks g e.toList) := by
        funext e
        simp [globMatchStr, hg]
      rw [List.any_cons, hstr]
      simp only [AddressFilter.matchesAux, hg]
      cases hmatch : emails.any (fun e => globMatchToks g e.toList) with
      | true => simp
      | false =>
          rw [ih hps]
          simp

theorem AddressFilter.matches_eq_pure (f : AddressFilter) (emails : List String)
    (h : patternsParse f.patterns = true) :
    f.matches emails = some (f.matchesPure emails) := by
  simp [AddressFilter.matches, AddressFilter.matchesPure,
    AddressFilter.matchesAux_eq_pure f.patterns emails h]

theorem Message.subjectAux_eq_pure (ps : List String) (subject : String)
    (h : patternsParse ps = true) :
    Message.subjectAux ps subject = some (ps.any (fun p => globMatchStr p subject)) := by
  induction ps with
  | nil => simp [Message.subjectAux]
  | cons p ps ih =>
      simp only [patternsParse, List.all_cons, Bool.and_eq_true] at h
      obtain ⟨hp, hps⟩ := h
      obtain ⟨g, hg⟩ := Option.isSome_iff_exists.mp hp
      have hstr : globMatchStr p subject = globMatchToks g subject.toList := by
        simp [globMatchStr, hg]
      rw [List.any_cons, hstr]
      simp only [Message.subjectAux, hg]
      cases hmatch : globMatchToks g subject.toList with
      | true => simp
      | false =>
          rw [ih hps]
          simp

theorem Message.matches_field_eq_pure (field : Option AddressFilter) (msg : Message)
    (extractor : Message → List (String × String))
    (h : addressFilterParses field = true) :
    Message.matches_field field msg extractor = some (fieldPure field (extractor msg)) := by
  cases field with
  | none => simp [Message.matches_field, fieldPure]
  | some af =>
      simp only [addressFilterParses] at h
      by_cases he : af.patterns.isEmpty
      · simp [Message.matches_field, fieldPure, he]
      · simp [Message.matches_field, fieldPure, he,
          AddressFilter.matches_eq_pure af _ h]

theorem Message.compare_eq_pure (msg : Message) (filter : MessageFilter)
    (h : filterParses filter = true) :
    Message.compare msg filter =
      some (fieldPure filter.«from» msg.«from», fieldPure filter.«to» msg.«to»,
        fieldPure filter.cc msg.cc, subjectPure filter.subject msg.subject) := by
  simp only [filterParses, Bool.and_eq_true] at h
  obtain ⟨⟨⟨hf, ht⟩, hc⟩, hs⟩ := h
  simp only [Message.compare, Message.matches_field_eq_pure _ _ _ hf,
    Message.matches_field_eq_pure _ _ _ ht, Message.matches_field_eq_pure _ _ _ hc,
    Option.bind_some, Option.some_bind]
  by_cases hemp : filter.subject.isEmpty
  · simp [hemp, subjectPure]
  · simp [hemp, subjectPure, Message.subjectAux_eq_pure _ _ hs]

theorem overallMatch_eq_pure (msg : Message) (filter : MessageFilter)
    (h : filterParses filter = true) :
    overallMatch msg filter = some (overallPure filter msg) := by
  simp [overallMatch, Message.compare_eq_pure msg filter h, overallPure]

theorem partitionM_eq_pure (f : MessageFilter) (msgs : List Message)
    (h : filterParses f = true) :
    partitionM f msgs =
      some (msgs.filter (fun m => overallPure f m),
            msgs.filter (fun m => !overallPure f m)) := by
  induction msgs with
  | nil => simp [partitionM]
  | cons m ms ih =>
      simp only [partitionM, overallMatch_eq_pure m f h, Option.some_bind, ih]
      cases hb : overallPure f m with
      | true => simp [List.filter_cons, hb]
      | false => simp [List.filter_cons, hb]

theorem apply_filters_eq_pure (fs : List MessageFilter) (msgs : List Message)
    (h : filtersParse fs = true) :
    apply_filters fs msgs = some (applyFiltersPure fs msgs) := by
  induction fs generalizing msgs with
  | nil => simp [apply_filters, applyFiltersPure]
  | cons f fs ih =>
      simp only [filtersParse, List.all_cons, Bool.and_eq_true] at h
      simp only [apply_filters, applyFiltersPure,
        partitionM_eq_pure f msgs h.1, Option.some_bind,
        ih _ (by simp [filtersParse, h.2])]
      rfl

theorem messageEvents_uid (f : MessageFilter) (x : Message) :
    ∀ e ∈ messageEvents f x, eventUid e = x.uid := by
  intro e he
  cases hacts : f.actions with
  | nil => simp [messageEvents, hacts] at he
  | cons a l =>
      simp only [messageEvents, hacts, List.head?_cons, List.mem_singleton] at he
      subst he
      cases a <;> simp [actionEvent, eventUid]

theorem applyFiltersPure_remaining (fs : List MessageFilter) (msgs : List Message) :
    (applyFiltersPure fs msgs).2 = msgs.filter (fun m => (firstMatch fs m).isNone) := by
  induction fs generalizing msgs with
  | nil => simp [applyFiltersPure, firstMatch]
  | cons f fs ih =>
      simp only [applyFiltersPure, ih]
      rw [List.filter_filter]
      apply List.filter_congr
      intro x _
      cases hov : overallPure f x with
      | true => simp [firstMatch, hov]
      | false => simp [firstMatch, hov]

theorem applyFiltersPure_event_uids (fs : List MessageFilter) (msgs : List Message) :
    ∀ e ∈ (applyFiltersPure fs msgs).1, eventUid e ∈ msgs.map Message.uid := by
  induction fs generalizing msgs with
  | nil => simp [applyFiltersPure]
  | cons f fs ih =>
      intro e he
      simp only [applyFiltersPure, List.mem_append] at he
      cases he with
      | inl h =>
          obtain ⟨x, hx, hex⟩ := List.mem_flatMap.mp h
          rw [messageEvents_uid f x e hex]
          exact List.mem_map_of_mem _ (List.mem_of_mem_filter hx)
      | inr h =>
          have h2 := ih _ e h
          exact (List.Sublist.map Message.uid (List.filter_sublist msgs)).subset h2

theorem flatMap_filter_events (f : MessageFilter) (m : Message) :
    ∀ L : List Message, L.Nodup → (∀ x ∈ L, x.uid = m.uid → x = m) →
      (L.flatMap (messageEvents f)).filter (fun e => eventUid e == m.uid) =
        if m ∈ L then messageEvents f m else [] := by
  intro L
  induction L with
  | nil => simp
  | cons x L ih =>
      intro hnd hinj
      rw [List.flatMap_cons, List.filter_append]
      have hL := ih (List.nodup_cons.mp hnd).2
        (fun y hy => hinj y (List.mem_cons_of_mem _ hy))
      by_cases hxm : x = m
      · subst hxm
        have hnotin : x ∉ L := (List.nodup_cons.mp hnd).1
        have hhead : (messageEvents f x).filter (fun e => eventUid e == x.uid) =
            messageEvents f x := by
          rw [List.filter_eq_self]
          intro e he
          simp [messageEvents_uid f x e he]
        rw [hhead, hL, if_neg hnotin, if_pos (List.mem_cons_self x L)]
        simp
      · have hxuid : ¬ x.uid = m.uid := fun h => hxm (hinj x (List.mem_cons_self x L) h)
        have hhead : (messageEvents f x).filter (fun e => eventUid e == m.uid) = [] := by
          rw [List.filter_eq_nil_iff]
          intro e he
          simp [messageEvents_uid f x e he, hxuid]
        rw [hhead, hL]
        simp only [List.nil_append]
        by_cases hmL : m ∈ L
        · rw [if_pos hmL, if_pos (List.mem_cons_of_mem _ hmL)]
        · rw [if_neg hmL, if_neg (fun hc => (List.mem_cons.mp hc).elim
            (fun h => hxm h.symm) hmL)]

theorem applyFiltersPure_events_of_mem (fs : List MessageFilter) (m : Message) :
    ∀ msgs : List Message, (msgs.map Message.uid).Nodup → m ∈ msgs →
      (applyFiltersPure fs msgs).1.filter (fun e => eventUid e == m.uid) =
        firstMatchEvents fs m := by
  induction fs with
  | nil =>
      intro msgs _ _
      simp [applyFiltersPure, firstMatchEvents, firstMatch]
  | cons f fs ih =>
      intro msgs hnd hm
      have hnodup : msgs.Nodup := List.Nodup.of_map _ hnd
      have hinj : ∀ x ∈ msgs, x.uid = m.uid → x = m := by
        intro x hx heq
        exact List.inj_on_of_nodup_map hnd hx hm heq
      simp only [applyFiltersPure, List.filter_append]
      have hmtn : (msgs.filter (fun y => overallPure f y)).Nodup := hnodup.filter _
      have hinj_mt : ∀ x ∈ msgs.filter (fun y => overallPure f y), x.uid = m.uid → x = m :=
        fun x hx => hinj x (List.mem_of_mem_filter hx)
      rw [flatMap_filter_events f m _ hmtn hinj_mt]
      cases hov : overallPure f m with
      | true =>
          have hmem_mt : m ∈ msgs.filter (fun y => overallPure f y) :=
            List.mem_filter.mpr ⟨hm, hov⟩
          have hrec : ((applyFiltersPure fs
              (msgs.filter (fun y => !overallPure f y))).1.filter
                (fun e => eventUid e == m.uid)) = [] := by
            rw [List.filter_eq_nil_iff]
            intro e he hbeq
            have heq : eventUid e = m.uid := by simpa using hbeq
            have huid := applyFiltersPure_event_uids fs _ e he
            rw [heq] at huid
            obtain ⟨x, hx, hxe⟩ := List.mem_map.mp huid
            have hxm : x = m := hinj x (List.mem_of_mem_filter hx) hxe
            subst hxm
            have := (List.mem_filter.mp hx).2
            simp [hov] at this
          rw [if_pos hmem_mt, hrec]
          simp [firstMatchEvents, firstMatch, hov]
      | false =>
          have hnmem : m ∉ msgs.filter (fun y => overallPure f y) := by
            intro h
            have := (List.mem_filter.mp h).2
            simp [hov] at this
          have hmem_rm : m ∈ msgs.filter (fun y => !overallPure f y) :=
            List.mem_filter.mpr ⟨hm, by simp [hov]⟩
          have hnd_rm : ((msgs.filter (fun y => !overallPure f y)).map Message.uid).Nodup :=
            List.Nodup.sublist (List.Sublist.map Message.uid (List.filter_sublist msgs)) hnd
          rw [if_neg hnmem, ih _ hnd_rm hmem_rm]
          simp [firstMatchEvents, firstMatch, hov]

example : parse_days "7d" = Except.ok (7 * 86400) := by decide

example : parse_days " 21d " = Except.ok (21 * 86400) := by decide

example : (parse_days "keep").isOk = false := by decide

example : (parse_days "d").isOk = false := by decide

example : (validate_imap_query "").isOk = false := by decide

example : (validate_imap_query "  ").isOk = false := by decide

example : (validate_imap_query "SEEN NOT INBOX").isOk = true := by decide

example : (validate_imap_query "\\Bogus").isOk = false := by decide

example : (validate_imap_query "SEEN foo@bar").isOk = false := by decide

theorem lookup_setAssoc (L : List (Nat × List String)) (uid : Nat) (ls : List String) :
    (setAssoc L uid ls).lookup uid = some ls := by
  induction L with
  | nil => simp [setAssoc, List.lookup]
  | cons kv rest ih =>
      obtain ⟨k, v⟩ := kv
      by_cases hk : k = uid
      · simp [setAssoc, hk, List.lookup]
      · have hbeq : (uid == k) = false := by
          simp only [beq_eq_false_iff_ne]
          exact Ne.symm hk
        simp [setAssoc, hk, List.lookup, hbeq, ih]

theorem labelsOfState_set_label (s : GmailState) (uid : Nat) (label : String)
    (h : (labelsOfState s uid).contains label = false) :
    labelsOfState (set_label s uid label).1 uid = labelsOfState s uid ++ [label] := by
  have hmail : (ensure_label_exists s label).1.msgLabels = s.msgLabels := by
    unfold ensure_label_exists
    split
    · rfl
    · rfl
  simp only [set_label]
  rw [if_neg (by simpa using h)]
  simp only [labelsOfState, hmail, lookup_setAssoc, Option.getD_some]

/-- C1 counterexample.  The claim says every action of `filter.actions` is
applied in order to each matched message.  On the code this is false: for
the filter with actions `[Star, Flag, Move "Archive"]` and a message it
matches, `apply_filters` issues only the Star store — not the three calls
the spec's "apply all actions in order" contract demands (the source even
says "We only honor the *first* action in the Vec"). -/
theorem c1_counterexample :
    overallMatch plainMessage threeActionFilter = some true ∧
    (apply_filters [threeActionFilter] [plainMessage]).map Prod.fst =
      some [FilterEvent.uidStore 5 "+X-GM-LABELS (\\Starred)"] ∧
    (apply_filters [threeActionFilter] [plainMessage]).map Prod.fst ≠
      some (specAllActionEvents threeActionFilter plainMessage.uid) := by
  refine ⟨by decide, by decide, by decide⟩

/-- C1 amended: for every matched message the engine dispatches exactly the
*first* configured action of the first matching filter (one event, or none
when the action list is empty); the remaining actions are ignored. -/
theorem c1_amended_first_action_only (fs : List MessageFilter) (msgs : List Message)
    (hp : filtersParse fs = true) (hu : (msgs.map Message.uid).Nodup)
    (m : Message) (hm : m ∈ msgs) (f : MessageFilter)
    (hf : firstMatch fs m = some f) :
    ∃ tr rem, apply_filters fs msgs = some (tr, rem) ∧
      tr.filter (fun e => eventUid e == m.uid) =
        (f.actions.head?.map (actionEvent m.uid)).toList := by
  refine ⟨(applyFiltersPure fs msgs).1, (applyFiltersPure fs msgs).2, ?_, ?_⟩
  · rw [apply_filters_eq_pure fs msgs hp]
  · rw [applyFiltersPure_events_of_mem fs m msgs hu hm]
    simp only [firstMatchEvents, hf, messageEvents]
    cases f.actions.head? <;> simp

/-- C1 amended, witnessed on the three-action filter: only the Star event
is issued for the matched message. -/
theorem c1_amended_witness :
    ∃ tr rem, apply_filters [threeActionFilter] [plainMessage] = some (tr, rem) ∧
      tr.filter (fun e => eventUid e == plainMessage.uid) =
        (threeActionFilter.actions.head?.map (actionEvent plainMessage.uid)).toList :=
  c1_amended_first_action_only [threeActionFilter] [plainMessage] (by decide)
    (by decide) plainMessage (by decide) threeActionFilter (by decide)

/-- C2: under parse-success of every configured glob, `Message::compare`
returns exactly the four independent tri-state field contributions
(absent ⇒ true; present-empty ⇒ message list empty; present-nonempty ⇒
`AddressFilter::matches` over the address components; subject ⇒ empty
pattern list or some glob match), and the engine's overall match is the
AND of the four booleans. -/
theorem c2_compare_tristate (msg : Message) (filter : MessageFilter)
    (h : filterParses filter = true) :
    Message.compare msg filter =
      some (fieldPure filter.«from» msg.«from», fieldPure filter.«to» msg.«to»,
        fieldPure filter.cc msg.cc, subjectPure filter.subject msg.subject) ∧
    overallMatch msg filter =
      some (fieldPure filter.«from» msg.«from» && fieldPure filter.«to» msg.«to» &&
        fieldPure filter.cc msg.cc && subjectPure filter.subject msg.subject) :=
  ⟨Message.compare_eq_pure msg filter h, overallMatch_eq_pure msg filter h⟩

/-- C2 witnessed on the source's own "only-me-star" test vector. -/
theorem c2_witness :
    filterParses onlyMeStarFilter = true ∧
    Message.compare matchingEmail onlyMeStarFilter = some (true, true, true, true) := by
  refine ⟨by decide, ?_⟩
  rw [(c2_compare_tristate matchingEmail onlyMeStarFilter (by decide)).1]
  decide

/-- C3: for a non-protected candidate, `Keep` always skips; a fixed TTL
`d` and a read-conditioned TTL (read duration iff the Seen flag is set,
else the unread duration) expire the message exactly when
`age = now - internalDate` satisfies `¬(age < duration)` — so equality
expires, and `age < duration` is the only skip condition. -/
theorem c3_ttl_resolution (now internalDate : Int) (st : State)
    (labels : List String) (seen : Bool)
    (hprot : (labels.contains "Starred" || labels.contains "Important") = false) :
    (st.ttl = TTL.keep →
      evaluateMessage now st labels internalDate seen =
        Except.ok StateDecision.keepSkip) ∧
    (∀ ds d, st.ttl = TTL.simple ds → parse_days ds = Except.ok d →
      evaluateMessage now st labels internalDate seen =
        Except.ok (if now - internalDate < d then StateDecision.notExpiredSkip
          else expireOutcome st)) ∧
    (∀ rs us r u, st.ttl = TTL.detailed rs us → parse_days rs = Except.ok r →
      parse_days us = Except.ok u →
      evaluateMessage now st labels internalDate seen =
        Except.ok (if now - internalDate < (if seen then r else u)
          then StateDecision.notExpiredSkip else expireOutcome st)) := by
  refine ⟨?_, ?_, ?_⟩
  · intro hk
    unfold evaluateMessage
    rw [if_neg (by simpa using hprot)]
    simp [hk]
  · intro ds d hds hpd
    unfold evaluateMessage
    rw [if_neg (by simpa using hprot)]
    simp only [hds]
    by_cases hlt : now - internalDate < d <;>
      simp [hpd, Bind.bind, Except.bind, hlt]
  · intro rs us r u hdet hr hu2
    unfold evaluateMessage
    rw [if_neg (by simpa using hprot)]
    simp only [hdet]
    cases seen with
    | true =>
        by_cases hlt : now - internalDate < r <;>
          simp [hr, Bind.bind, Except.bind, hlt]
    | false =>
        by_cases hlt : now - internalDate < u <;>
          simp [hu2, Bind.bind, Except.bind, hlt]

/-- C3 witnessed at the expiry boundary: age exactly equal to the 7-day
TTL expires the message and applies the state's Delete action. -/
theorem c3_witness :
    evaluateMessage (7 * 86400) junkState [] 0 false =
      Except.ok (StateDecision.applied StateAction.delete) := by
  have h := (c3_ttl_resolution (7 * 86400) 0 junkState [] false (by decide)).2.1
    "7d" (7 * 86400) rfl (by decide)
  rw [h]
  decide

/-- C4: filters are evaluated in configured order over the remaining set;
each message receives exactly the events of its first matching filter
(so no message is acted on by two filters), a message matching no filter
receives no event at all, and the final remaining set is exactly the
messages matched by no filter. -/
theorem c4_first_match_wins (fs : List MessageFilter) (msgs : List Message)
    (hp : filtersParse fs = true) (hu : (msgs.map Message.uid).Nodup)
    (m : Message) (hm : m ∈ msgs) :
    ∃ tr rem, apply_filters fs msgs = some (tr, rem) ∧
      tr.filter (fun e => eventUid e == m.uid) = firstMatchEvents fs m ∧
      rem = msgs.filter (fun x => (firstMatch fs x).isNone) ∧
      (firstMatch fs m = none →
        tr.filter (fun e => eventUid e == m.uid) = [] ∧ m ∈ rem) := by
  refine ⟨(applyFiltersPure fs msgs).1, (applyFiltersPure fs msgs).2, ?_, ?_, ?_, ?_⟩
  · rw [apply_filters_eq_pure fs msgs hp]
  · exact applyFiltersPure_events_of_mem fs m msgs hu hm
  · exact applyFiltersPure_remaining fs msgs
  · intro hnone
    constructor
    · rw [applyFiltersPure_events_of_mem fs m msgs hu hm]
      simp [firstMatchEvents, hnone]
    · rw [applyFiltersPure_remaining fs msgs]
      exact List.mem_filter.mpr ⟨hm, by simp [hnone]⟩

/-- C4 witnessed on a two-filter, two-message run: the second message
matches no filter, receives no event and survives untouched. -/
theorem c4_witness :
    ∃ tr rem, apply_filters [onlyMeStarFilter, threeActionFilter]
        [matchingEmail, plainMessage] = some (tr, rem) ∧
      tr.filter (fun e => eventUid e == matchingEmail.uid) =
        firstMatchEvents [onlyMeStarFilter, threeActionFilter] matchingEmail ∧
      rem = [matchingEmail, plainMessage].filter
        (fun x => (firstMatch [onlyMeStarFilter, threeActionFilter] x).isNone) ∧
      (firstMatch [onlyMeStarFilter, threeActionFilter] matchingEmail = none →
        tr.filter (fun e => eventUid e == matchingEmail.uid) = [] ∧
          matchingEmail ∈ rem) :=
  c4_first_match_wins [onlyMeStarFilter, threeActionFilter]
    [matchingEmail, plainMessage] (by decide) (by decide) matchingEmail (by decide)

/-- C5 (code bug): `validate_imap_query` does reject the empty query, yet
`evaluate_states` issues the `uid_search` network round trip for a state
with that very query — the validator is never invoked, so no selection
query is validated before its network call. -/
theorem c5_unvalidated_search :
    (validate_imap_query "").isOk = false ∧
    evaluate_states emptyOracle 0 [emptyQueryState] =
      Except.ok [NetEvent.selectInbox, NetEvent.uidSearch ""] := by
  refine ⟨by decide, by rfl⟩

/-- C6 counterexample.  The claim says a malformed pattern is rejected at
configuration load time and compilation never fails per-message.  On the
code the malformed pattern `invalid[glob` is accepted at load time
(patterns are stored as raw strings), and the per-message match call
panics — exactly what the source's own test `test_invalid_glob_panics`
asserts. -/
theorem c6_counterexample :
    deserialize_address_filter ["invalid[glob"] =
      Except.ok (some { patterns := ["invalid[glob"] }) ∧
    AddressFilter.matches { patterns := ["invalid[glob"] } ["test@example.com"] =
      none := by
  refine ⟨rfl, by decide⟩

/-- C6 amended: pattern loading performs no glob validation (it always
succeeds, storing the raw strings), and glob compilation happens during
per-message matching, where it never fails exactly when every configured
pattern parses. -/
theorem c6_amended_load_and_match (ps : List String) (f : AddressFilter)
    (emails : List String) (h : patternsParse f.patterns = true) :
    deserialize_address_filter ps = Except.ok (some { patterns := ps }) ∧
    (f.matches emails).isSome = true := by
  refine ⟨rfl, ?_⟩
  rw [AddressFilter.matches_eq_pure f emails h]
  rfl

/-- C6 amended, witnessed: the malformed pattern loads fine, and a filter
whose patterns all parse never fails during matching. -/
theorem c6_witness :
    deserialize_address_filter ["invalid[glob"] =
      Except.ok (some { patterns := ["invalid[glob"] }) ∧
    (AddressFilter.matches { patterns := ["*@tatari.tv"] }
      ["a@tatari.tv"]).isSome = true :=
  c6_amended_load_and_match ["invalid[glob"] { patterns := ["*@tatari.tv"] }
    ["a@tatari.tv"] (by decide)

/-- C7: a candidate whose label set carries a protective marker — Starred
or Important, the labels the Star/Flag filter actions write — is skipped
unconditionally by every retention state, regardless of its age, TTL,
read flag and action. -/
theorem c7_protected_skip (now internalDate : Int) (st : State)
    (labels : List String) (seen : Bool)
    (h : labels.contains "Starred" = true ∨ labels.contains "Important" = true) :
    evaluateMessage now st labels internalDate seen =
      Except.ok StateDecision.protectedSkip := by
  unfold evaluateMessage
  cases h with
  | inl h1 => rw [if_pos (show (labels.contains "Starred" || labels.contains "Important") = true by simp at h1 ⊢; exact Or.inl h1)]
  | inr h2 => rw [if_pos (show (labels.contains "Starred" || labels.contains "Important") = true by simp at h2 ⊢; exact Or.inr h2)]

/-- C7 witnessed: a Starred message far past the 7-day Delete TTL is
still skipped. -/
theorem c7_witness :
    evaluateMessage 1000000000 junkState ["Starred"] 0 true =
      Except.ok StateDecision.protectedSkip :=
  c7_protected_skip 1000000000 0 junkState ["Starred"] true (Or.inl (by decide))

/-- C8: with the NERF (dry-run) flag set, an otherwise-expiring message
(non-protected, resolved TTL elapsed) yields only the logged `nerfLog`
decision, which issues zero mutating server calls. -/
theorem c8_nerf_no_mutation (now internalDate : Int) (st : State)
    (labels : List String) (seen : Bool) (dur : Int)
    (hnerf : st.nerf = true)
    (hprot : (labels.contains "Starred" || labels.contains "Important") = false)
    (hdur : resolvedDuration st seen = some dur)
    (hexp : dur ≤ now - internalDate) :
    evaluateMessage now st labels internalDate seen =
      Except.ok (StateDecision.nerfLog st.action) ∧
    ∀ uid, decisionEvents uid (StateDecision.nerfLog st.action) = [] := by
  refine ⟨?_, fun uid => rfl⟩
  have hlt : ¬ now - internalDate < dur := by omega
  cases httl : st.ttl with
  | keep => simp [resolvedDuration, httl] at hdur
  | simple ds =>
      have hpd : parse_days ds = Except.ok dur := by
        simp only [resolvedDuration, httl] at hdur
        cases hp : parse_days ds <;> simp [hp, Except.toOption] at hdur
        simp [hdur]
      unfold evaluateMessage
      rw [if_neg (by simpa using hprot)]
      simp [httl, hpd, Bind.bind, Except.bind, hlt, expireOutcome, hnerf]
  | detailed rs us =>
      have hpd : parse_days (if seen then rs else us) = Except.ok dur := by
        simp only [resolvedDuration, httl] at hdur
        cases hp : parse_days (if seen then rs else us) <;>
          simp [hp, Except.toOption] at hdur
        simp [hdur]
      unfold evaluateMessage
      rw [if_neg (by simpa using hprot)]
      simp [httl, hpd, Bind.bind, Except.bind, hlt, expireOutcome, hnerf]

/-- C8 witnessed: a 3-day NERF Delete state on a 4-day-old unprotected
message only logs; no mutating call is recorded. -/
theorem c8_witness :
    evaluateMessage (4 * 86400) nerfState [] 0 true =
      Except.ok (StateDecision.nerfLog StateAction.delete) ∧
    decisionEvents 101 (StateDecision.nerfLog StateAction.delete) = [] := by
  have h := c8_nerf_no_mutation (4 * 86400) 0 nerfState [] true (3 * 86400)
    rfl (by decide) (by decide) (by decide)
  exact ⟨h.1, h.2 101⟩

/-- Helper for C9: `set_label` short-circuits when the label is already
present — one fetch request, no store, state unchanged. -/
theorem set_label_noop (s : GmailState) (uid : Nat) (label : String)
    (h : (labelsOfState s uid).contains label = true) :
    set_label s uid label = (s, [LabelReq.fetchLabels uid]) := by
  simp only [set_label]
  rw [if_pos (by simpa using h)]

/-- C9: `set_label` is a no-op when the label is already present (one
fetch, no store); starting from a state without the label, two
consecutive `set_label` calls issue exactly one additive store; and
`del_label` issues its subtractive store unconditionally, so two
consecutive calls both go through (each as exactly that one request). -/
theorem c9_label_idempotence (s : GmailState) (uid : Nat) (label : String) :
    ((labelsOfState s uid).contains label = true →
      set_label s uid label = (s, [LabelReq.fetchLabels uid])) ∧
    ((labelsOfState s uid).contains label = false →
      countStoreAdds ((set_label s uid label).2 ++
        (set_label (set_label s uid label).1 uid label).2) = 1) ∧
    (del_label s uid label).2 = [LabelReq.storeDel uid label] ∧
    (del_label (del_label s uid label).1 uid label).2 =
      [LabelReq.storeDel uid label] := by
  refine ⟨set_label_noop s uid label, ?_, rfl, rfl⟩
  intro h
  have hs1 : labelsOfState (set_label s uid label).1 uid =
      labelsOfState s uid ++ [label] := labelsOfState_set_label s uid label h
  have hcont2 : (labelsOfState (set_label s uid label).1 uid).contains label = true := by
    rw [hs1]
    simp
  have hsecond : (set_label (set_label s uid label).1 uid label).2 =
      [LabelReq.fetchLabels uid] :=
    congrArg Prod.snd (set_label_noop (set_label s uid label).1 uid label hcont2)
  rw [hsecond]
  have hfirst : (set_label s uid label).2 =
      LabelReq.fetchLabels uid :: (ensure_label_exists s label).2 ++
        [LabelReq.storeAdd uid label] := by
    simp only [set_label]
    rw [if_neg (by simpa using h)]
  rw [hfirst]
  by_cases hm : label ∈ s.mailboxes
  · simp [ensure_label_exists, hm, countStoreAdds]
  · simp [ensure_label_exists, hm, countStoreAdds]

/-- C9 witnessed on a concrete state: the double `set_label` issues one
add, and `del_label` always issues its single remove request. -/
theorem c9_witness :
    countStoreAdds ((set_label sampleGmailState 7 "Work").2 ++
      (set_label (set_label sampleGmailState 7 "Work").1 7 "Work").2) = 1 ∧
    (del_label sampleGmailState 7 "Work").2 = [LabelReq.storeDel 7 "Work"] := by
  have h := c9_label_idempotence sampleGmailState 7 "Work"
  exact ⟨h.2.1 (by decide), h.2.2.1⟩

/-- Helper for C10: `matches_field` only looks at the address components
and the emptiness of the extracted list. -/
theorem matches_field_ext_eq (field : Option AddressFilter) (m1 m2 : Message)
    (ext : Message → List (String × String))
    (h : (ext m1).map Prod.snd = (ext m2).map Prod.snd) :
    Message.matches_field field m1 ext = Message.matches_field field m2 ext := by
  cases field with
  | none => rfl
  | some f =>
      have hemp : (ext m1).isEmpty = (ext m2).isEmpty := by
        cases e1 : ext m1 <;> cases e2 : ext m2 <;> simp_all
      simp only [Message.matches_field, h, hemp]

/-- C10: `compare` depends only on the address components of the to/cc/from
pairs (and on the subject), never on the display names: two messages that
agree there get the identical four-tuple against every filter. -/
theorem c10_display_names_irrelevant (filter : MessageFilter) (m1 m2 : Message)
    (hto : m1.«to».map Prod.snd = m2.«to».map Prod.snd)
    (hcc : m1.cc.map Prod.snd = m2.cc.map Prod.snd)
    (hfrom : m1.«from».map Prod.snd = m2.«from».map Prod.snd)
    (hsub : m1.subject = m2.subject) :
    Message.compare m1 filter = Message.compare m2 filter := by
  unfold Message.compare
  rw [matches_field_ext_eq filter.«from» m1 m2 _ hfrom,
    matches_field_ext_eq filter.«to» m1 m2 _ hto,
    matches_field_ext_eq filter.cc m1 m2 _ hcc, hsub]

/-- C10 witnessed: renaming the display names of the test vector changes
nothing in the compare result. -/
theorem c10_witness :
    Message.compare matchingEmail onlyMeStarFilter =
      Message.compare matchingEmailRenamed onlyMeStarFilter :=
  c10_display_names_irrelevant onlyMeStarFilter matchingEmail matchingEmailRenamed
    rfl rfl rfl rfl
